import Mathlib

/-!
Verification development for the fishflow frontend analytics core.

The development shallowly embeds the numerical core of the repository:

* the movement-model matrix chain calculator
  (`calculateBasinAnalysis` / `calculateProjectionAnalysis` in
  `src/fishflow/frontend/src/components/SidePanels.js`),
* the depth-model chunk loader
  (`src/fishflow/frontend/src/components/depth/depthDataLoader.js`
  together with the cache merge performed in `DepthModel.js`), and
* the depth-model risk aggregator
  (`cellMinimumRisk` and its helpers in `MinimumRiskMap.js`, and
  `isTimestampInTimeOfDay` in `RiskTimeSeries.js`).

Modelling conventions, fixed once here:

* Numeric values are rationals (`ℚ`).  Every property proved below is an
  exact bookkeeping identity (index selection, list filtering, minima), so
  nothing depends on the floating-point representation used at runtime.
* Calendar dates of the movement model are integer day indices (`Int`).
  The source computes the key for day `t ± i` by `setDate(getDate() ± i)`
  followed by `toISOString().split('T')[0]`; for a fixed-offset clock this
  round-trip realises exactly the shift by `i` whole days, and the
  date-string / day-index correspondence is a bijection, so a store keyed
  by `Int` is an equivalent presentation of the date-string-keyed object.
* JavaScript objects are association lists (first binding wins, property
  update keeps the position of an existing key and appends a new one);
  this matches object-key lookup and insertion order.
* A JavaScript timestamp is observed by the risk aggregator in exactly two
  ways: as an instant (comparison of `new Date(ts)` values, for the date
  range filter) and as its local wall-clock time of day
  (`toTimeString().slice(0, 5)`, a zero-padded `"HH:MM"` string whose
  lexicographic order coincides with the numeric order of
  `60 * HH + MM`).  A timestamp is therefore embedded as that pair; times
  of day are minutes in `[0, 1440)`.
-/

/-! ## Movement model: matrix chain calculator (`SidePanels.js`) -/

/-- A transition matrix, row major, as held by the movement matrix store. -/
abbrev TransMatrix := List (List ℚ)

/-- The date-indexed movement matrix store (`movementMatrices`): `none`
means the matrix for that day is absent from the store. -/
abbrev MatrixStore := Int → Option TransMatrix

/-- Array read `v[i]` totalised with `0`; every read below is guarded by
the corresponding length hypothesis, so the default is never observed. -/
def vget (v : List ℚ) (i : ℕ) : ℚ := (v.get? i).getD 0

/-- Matrix read `M[i][j]`, totalised like `vget`. -/
def entry (M : TransMatrix) (i j : ℕ) : ℚ := vget ((M.get? i).getD []) j

/-- The date loop of `calculateBasinAnalysis` (`SidePanels.js` lines
10–20): the required dates `t-1, t-2, …, t-w`. -/
def basinDateSeq (t : Int) (w : ℕ) : List Int :=
  (List.range w).map fun i => t - ((i : Int) + 1)

/-- The date loop of `calculateProjectionAnalysis` (`SidePanels.js` lines
78–88): the required dates `t, t+1, …, t+w-1`. -/
def forwardDateSeq (t : Int) (w : ℕ) : List Int :=
  (List.range w).map fun i => t + (i : Int)

/-- The validation pass shared by both calculators: walk the required
dates in order; on the first date whose matrix is missing the source logs
`Missing matrix for date …` and returns the empty object before any
arithmetic happens.  The warned date is the observable report of the
failure, so the early exit is embedded as `Except.error` carrying it. -/
def collectDates (store : MatrixStore) : List Int → Except Int (List Int)
  | [] => .ok []
  | d :: rest =>
    match store d with
    | none => .error d
    | some _ => (collectDates store rest).map (fun ds => d :: ds)

/-- The indicator vector `x` (`SidePanels.js` lines 26–32 and 94–100):
start from `Array(n).fill(0)` and set `x[cellId] = 1` for every selected
cell with `cellId < n`.  A negative id passes the `cellId < n` guard, but
in JavaScript the write lands on a non-index property of the array and is
never read back by the indexed loops, so it leaves the vector unchanged. -/
def indicatorStep (n : ℕ) (x : List ℚ) (cellId : Int) : List ℚ :=
  if cellId < (n : Int) then
    if 0 ≤ cellId then x.set cellId.toNat 1 else x
  else x

/-- The indicator loop itself (see `indicatorStep`). -/
def buildIndicator (selectedCells : List Int) (n : ℕ) : List ℚ :=
  selectedCells.foldl (indicatorStep n) (List.replicate n 0)

/-- One step of the forward loop (`SidePanels.js` lines 105–117):
`newResult[i] = Σ_j M[i][j] * result[j]`. -/
def matVec (n : ℕ) (M : TransMatrix) (v : List ℚ) : List ℚ :=
  (List.range n).map fun i => ∑ j in Finset.range n, entry M i j * vget v j

/-- One step of the basin composite loop (`SidePanels.js` lines 44–55):
`newB[i][j] = Σ_k B[i][k] * M[k][j]`. -/
def matMul (n : ℕ) (B M : TransMatrix) : TransMatrix :=
  (List.range n).map fun i =>
    (List.range n).map fun j => ∑ k in Finset.range n, entry B i k * entry M k j

/-- `calculateProjectionAnalysis` (`SidePanels.js` lines 73–126),
instrumented with the number of scalar multiplications performed (each
`matVec` application performs `n * n` of them; the missing-date exit
performs none).  The result object `{0: r[0], …, n-1: r[n-1]}` is the
result list itself. -/
def calculateProjectionAnalysisInstr (store : MatrixStore) (selectedCells : List Int)
    (t : Int) (w : ℕ) : Except Int (List ℚ) × ℕ :=
  match collectDates store (forwardDateSeq t w) with
  | .error d => (.error d, 0)
  | .ok ds =>
    let n := ((ds.head?.bind store).getD []).length
    let x := buildIndicator selectedCells n
    (.ok (ds.foldl (fun r d => matVec n ((store d).getD []) r) x), ds.length * (n * n))

/-- The value returned by `calculateProjectionAnalysis`. -/
def calculateProjectionAnalysis (store : MatrixStore) (selectedCells : List Int)
    (t : Int) (w : ℕ) : Except Int (List ℚ) :=
  (calculateProjectionAnalysisInstr store selectedCells t w).1

/-- `calculateBasinAnalysis` (`SidePanels.js` lines 5–71), instrumented
with the number of scalar multiplications performed: `w - 1` composite
multiplications of `n³` each, plus `n²` for the final column dot
products; the missing-date exit performs none. -/
def calculateBasinAnalysisInstr (store : MatrixStore) (selectedCells : List Int)
    (t : Int) (w : ℕ) : Except Int (List ℚ) × ℕ :=
  match collectDates store (basinDateSeq t w) with
  | .error d => (.error d, 0)
  | .ok ds =>
    let n := ((ds.head?.bind store).getD []).length
    let x := buildIndicator selectedCells n
    let B :=
      match ds with
      | [] => []
      | d :: rest => rest.foldl (fun Bacc dd => matMul n Bacc ((store dd).getD [])) ((store d).getD [])
    (.ok ((List.range n).map fun j => ∑ i in Finset.range n, entry B i j * vget x i),
      (ds.length - 1) * (n * n * n) + n * n)

/-- The value returned by `calculateBasinAnalysis`. -/
def calculateBasinAnalysis (store : MatrixStore) (selectedCells : List Int)
    (t : Int) (w : ℕ) : Except Int (List ℚ) :=
  (calculateBasinAnalysisInstr store selectedCells t w).1

/-! ## Depth model: data types shared by the loader and the aggregator -/

/-- Association-list lookup: JavaScript object property read. -/
def alookup {α β : Type} [DecidableEq α] : List (α × β) → α → Option β
  | [], _ => none
  | p :: l, k => if p.1 = k then some p.2 else alookup l k

/-- Association-list write: JavaScript object property assignment (an
existing key keeps its position, a new key is appended, matching object
iteration order). -/
def aupdate {α β : Type} [DecidableEq α] : List (α × β) → α → β → List (α × β)
  | [], k, v => [(k, v)]
  | p :: l, k, v => if p.1 = k then (k, v) :: l else p :: aupdate l k v

/-- A timestamp as observed by the aggregator: its instant (the order of
`new Date(ts)` values, epoch minutes) and its local wall-clock time of day
(`toTimeString().slice(0, 5)`, as minutes). -/
structure Timestamp where
  instant : Int
  todMinutes : ℕ
deriving DecidableEq, Repr

/-- One occupancy chunk as stored in the cache: the `timestamps` list and
the `cells` object mapping a cell id to the probability list positionally
aligned with `timestamps`. -/
structure Chunk where
  timestamps : List Timestamp
  cells : List (ℕ × List ℚ)
deriving DecidableEq, Repr

/-- A month key `"YYYY-MM"`, as the (year, month) pair it encodes. -/
abbrev Month := ℕ × ℕ

/-- The inner level of the loaded-data object: depth bin to chunk. -/
abbrev MonthData := List (ℕ × Chunk)

/-- The loaded-data object `{month: {depth: chunk}}`. -/
abbrev Cache := List (Month × MonthData)

/-- A calendar date bound of the filter state, observed both as its
calendar fields (by the month extraction of the loader) and as the
instant `new Date(bound)` (by the date-range filter of the aggregator). -/
structure DateBound where
  year : ℕ
  month : ℕ
  day : ℕ
  instant : Int
deriving DecidableEq, Repr

/-- The depth-model filter state: `depthBins` maps a max-depth category to
the depth layers selected for it; `dateStart`/`dateEnd` are the date
range (absent when unset); `timeOfDay` is the list of `{start, end}`
time-of-day ranges, in minutes. -/
structure FilterState where
  depthBins : List (ℕ × List ℕ)
  dateStart : Option DateBound
  dateEnd : Option DateBound
  timeOfDay : List (ℕ × ℕ)

/-! ## Depth model: chunk loader (`depthDataLoader.js`) -/

/-- The month walk of `getRequiredMonths`: starting from `(y, m)`, emit
`count` consecutive months. -/
def monthWalk : ℕ → ℕ → ℕ → List Month
  | 0, _, _ => []
  | Nat.succ k, y, m => (y, m) :: (if m = 12 then monthWalk k (y + 1) 1 else monthWalk k y (m + 1))

/-- `getRequiredMonths` (`depthDataLoader.js` lines 6–22).  The source
loops `current` from the first of the start month while
`current <= endDate`; because `current` has day 1 and the end date has
day ≥ 1, the condition holds exactly for the months whose linear index
`12·year + (month-1)` is at most that of the end month, so the loop emits
`ei + 1 - si` months (none when the start month is after the end month). -/
def getRequiredMonths (dateStart dateEnd : Option DateBound) : List Month :=
  match dateStart, dateEnd with
  | some s, some e =>
    let si := s.year * 12 + s.month
    let ei := e.year * 12 + e.month
    monthWalk (ei + 1 - si) s.year s.month
  | _, _ => []

/-- JavaScript `Set` insertion: keep the first occurrence, append a new
value. -/
def uniqueInsert (l : List ℕ) (a : ℕ) : List ℕ := if a ∈ l then l else l ++ [a]

/-- Ascending insertion used to realise `.sort((a, b) => a - b)`. -/
def insertAsc (a : ℕ) : List ℕ → List ℕ
  | [] => [a]
  | b :: l => if a ≤ b then a :: b :: l else b :: insertAsc a l

/-- Ascending sort; extensionally the result of `.sort((a, b) => a - b)`
(on the duplicate-free lists it is applied to, any sorting algorithm
yields the same list). -/
def sortAsc (l : List ℕ) : List ℕ := l.foldr insertAsc []

/-- `getRequiredDepthBins` (`depthDataLoader.js` lines 29–40): the values
of the depth-selection object, collected into a `Set` and sorted
ascending. -/
def getRequiredDepthBins (depthBins : List (ℕ × List ℕ)) : List ℕ :=
  sortAsc ((depthBins.map Prod.snd).flatten.foldl uniqueInsert [])

/-- The membership test of `getMissingChunks`:
`!loadedChunks[month] || !loadedChunks[month][depth]`. -/
def chunkAbsent (loadedChunks : Cache) (month : Month) (depth : ℕ) : Bool :=
  match alookup loadedChunks month with
  | none => true
  | some inner => (alookup inner depth).isNone

/-- `getMissingChunks` (`depthDataLoader.js` lines 75–88): the nested
`forEach` push loop over required months × required depth bins.
`scenarioId` is a parameter of the source signature and is unused there
too. -/
def getMissingChunks (scenarioId : String) (months : List Month) (depthBins : List ℕ)
    (loadedChunks : Cache) : List (Month × ℕ) :=
  months.flatMap fun month =>
    depthBins.filterMap fun depth =>
      if chunkAbsent loadedChunks month depth then some (month, depth) else none

/-- The write `results[m] ||= {}; results[m][d] = {cells, timestamps}`
performed for each successfully fetched chunk. -/
def cacheInsert (c : Cache) (m : Month) (d : ℕ) (chunk : Chunk) : Cache :=
  match alookup c m with
  | none => aupdate c m [(d, chunk)]
  | some inner => aupdate c m (aupdate inner d chunk)

/-- A fetch oracle standing for `loadDataChunk`: the response for a
`(month, depth)` request, `none` when the fetch fails. -/
abbrev FetchOracle := Month → ℕ → Option Chunk

/-- `loadDataChunks` (`depthDataLoader.js` lines 129–167), instrumented
with the number of fetches issued.  The source fetches in batches of 3
concurrent requests; completion order only interleaves the progress
callbacks — each chunk writes its own `(month, depth)` slot and a failed
fetch is logged and excluded — so the merged result and the total fetch
count are those of the sequential fold below. -/
def loadChunkStep (oracle : FetchOracle) (acc : Cache × ℕ) (c : Month × ℕ) : Cache × ℕ :=
  match oracle c.1 c.2 with
  | some chunk => (cacheInsert acc.1 c.1 c.2 chunk, acc.2 + 1)
  | none => (acc.1, acc.2 + 1)

/-- The fetch loop itself (see `loadChunkStep`). -/
def loadDataChunksInstr (oracle : FetchOracle) (scenarioId : String)
    (chunks : List (Month × ℕ)) : Cache × ℕ :=
  chunks.foldl (loadChunkStep oracle) ([], 0)

/-- `loadRequiredData` (`depthDataLoader.js` lines 177–205), instrumented
with the number of fetches issued.  The guard on a null `scenarioId` /
`filterState` is not represented: the embedding always passes both. -/
def loadRequiredDataInstr (oracle : FetchOracle) (scenarioId : String)
    (filterState : FilterState) (currentData : Cache) : Cache × ℕ :=
  let requiredMonths := getRequiredMonths filterState.dateStart filterState.dateEnd
  let requiredDepthBins := getRequiredDepthBins filterState.depthBins
  if requiredMonths = [] ∨ requiredDepthBins = [] then ([], 0)
  else
    let missingChunks := getMissingChunks scenarioId requiredMonths requiredDepthBins currentData
    if missingChunks = [] then ([], 0)
    else loadDataChunksInstr oracle scenarioId missingChunks

/-- The caller-side merge of `DepthModel.js` (lines 55–67): copy the
previous object, create a missing month level, then overwrite each
`(month, depth)` slot with the newly fetched chunk. -/
def mergeMonthStep (merged : Cache) (p : Month × MonthData) : Cache :=
  let ensured :=
    match alookup merged p.1 with
    | none => merged ++ [(p.1, ([] : MonthData))]
    | some _ => merged
  p.2.foldl (fun mAcc q => cacheInsert mAcc p.1 q.1 q.2) ensured

/-- The merge loop itself (see `mergeMonthStep`). -/
def mergeLoadedData (prev newData : Cache) : Cache :=
  newData.foldl mergeMonthStep prev

/-! ## Depth model: risk aggregator (`MinimumRiskMap.js`, `RiskTimeSeries.js`) -/

/-- `getCellMaxDepth` (`MinimumRiskMap.js` lines 481–486): bounds-checked
read of the preloaded max-depth array. -/
def getCellMaxDepth (cellMaxDepths : List ℕ) (cellId : ℕ) : Option ℕ :=
  cellMaxDepths.get? cellId

/-- `getSelectedDepthsForCell` (`MinimumRiskMap.js` lines 510–513):
`filterState.depthBins[cellMaxDepth] || []`.  A max depth of `0` is falsy
in the source (`!cellMaxDepth`), hence yields no selection. -/
def getSelectedDepthsForCell (fs : FilterState) (cellMaxDepth : ℕ) : List ℕ :=
  if cellMaxDepth = 0 then [] else (alookup fs.depthBins cellMaxDepth).getD []

/-- `filterTimestampsByTimeOfDay` (`MinimumRiskMap.js` lines 516–529).
The source compares the zero-padded `"HH:MM"` string with
`timeStr >= range.start && timeStr <= range.end`, i.e. both bounds
inclusive, in minutes. -/
def filterTimestampsByTimeOfDay (fs : FilterState) (timestamps : List Timestamp) :
    List Timestamp :=
  if fs.timeOfDay = [] then timestamps
  else
    timestamps.filter fun ts =>
      fs.timeOfDay.any fun range =>
        decide (range.1 ≤ ts.todMinutes) && decide (ts.todMinutes ≤ range.2)

/-- `filterTimestampsByDateRange` (`MinimumRiskMap.js` lines 532–544):
keep the timestamps whose instant lies between the parsed bounds,
inclusive; no filtering when either bound is unset. -/
def filterTimestampsByDateRange (fs : FilterState) (timestamps : List Timestamp) :
    List Timestamp :=
  match fs.dateStart, fs.dateEnd with
  | some s, some e =>
    timestamps.filter fun ts => decide (s.instant ≤ ts.instant) && decide (ts.instant ≤ e.instant)
  | _, _ => timestamps

/-- `isTimestampInTimeOfDay` (`RiskTimeSeries.js` lines 160–169): true on
an empty range list, otherwise membership of the wall-clock time of day
in some range, both bounds inclusive. -/
def isTimestampInTimeOfDay (ts : Timestamp) (timeOfDayRanges : List (ℕ × ℕ)) : Bool :=
  if timeOfDayRanges = [] then true
  else
    timeOfDayRanges.any fun range =>
      decide (range.1 ≤ ts.todMinutes) && decide (ts.todMinutes ≤ range.2)

/-- First-occurrence index: JavaScript `Array.prototype.indexOf`, with
`none` for the `-1` not-found result. -/
def idxOf? {α : Type} [DecidableEq α] (a : α) : List α → Option ℕ
  | [] => none
  | b :: l => if b = a then some 0 else (idxOf? a l).map (· + 1)

/-- The month-loop body of `cellMinimumRisk` (`MinimumRiskMap.js` lines
574–611) for one loaded month: take the timestamp list of the chunk of
the first selected depth (`selectedDepths[0]`; the whole month is skipped
when that chunk is absent), filter it by date range then time of day,
and, for each surviving timestamp, sum the cell's probabilities across
the selected depth chunks that hold data for it (`hasData` guards the
push). -/
def monthProbs (fs : FilterState) (cellId : ℕ) (selectedDepths : List ℕ)
    (mdata : MonthData) : List ℚ :=
  match selectedDepths.head? with
  | none => []
  | some d0 =>
    match alookup mdata d0 with
    | none => []
    | some firstDepthData =>
      let rawTimestamps := firstDepthData.timestamps
      let finalFilteredTimestamps :=
        filterTimestampsByTimeOfDay fs (filterTimestampsByDateRange fs rawTimestamps)
      finalFilteredTimestamps.filterMap fun timestamp =>
        match idxOf? timestamp rawTimestamps with
        | none => none
        | some timestampIndex =>
          let acc :=
            selectedDepths.foldl
              (fun acc depth =>
                match alookup mdata depth with
                | none => acc
                | some depthData =>
                  match alookup depthData.cells cellId with
                  | none => acc
                  | some cellProbabilities =>
                    if timestampIndex < cellProbabilities.length then
                      (acc.1 + vget cellProbabilities timestampIndex, true)
                    else acc)
              ((0 : ℚ), false)
          if acc.2 then some acc.1 else none

/-- `cellMinimumRisk` (`MinimumRiskMap.js` lines 547–620) for one cell:
`none` is the cell being absent from the `riskData` object (no computable
risk).  The early return on an entirely empty `loadedData` object yields
the same value as the main path (the month loop contributes nothing), so
it is not represented separately.  `Math.min(...allProbabilities)` is the
left fold of `min` over the collected values. -/
def cellMinimumRisk (loadedData : Cache) (cellMaxDepths : List ℕ) (fs : FilterState)
    (cellId : ℕ) : Option ℚ :=
  match getCellMaxDepth cellMaxDepths cellId with
  | none => none
  | some cellMaxDepth =>
    if cellMaxDepth = 0 then none
    else
      match getSelectedDepthsForCell fs cellMaxDepth with
      | [] => none
      | d0 :: restDepths =>
        let allProbabilities :=
          loadedData.flatMap fun md => monthProbs fs cellId (d0 :: restDepths) md.2
        match allProbabilities with
        | [] => none
        | p :: ps => some (ps.foldl min p)

/-! ## Spec-side definitions

The following definitions follow the wording of the specification (§4.4
and §8) rather than the source; they exist to be compared with the
source-side `cellMinimumRisk` above. -/

/-- Spec-side qualification of a timestamp: it lies in the date range
(when both bounds are set) and, unless no time-of-day interval is
configured, its local wall-clock time of day falls in one of them (the
source classifies with both bounds inclusive; see `isTimestampInTimeOfDay`). -/
def specQualifies (fs : FilterState) (ts : Timestamp) : Bool :=
  (match fs.dateStart, fs.dateEnd with
   | some s, some e => decide (s.instant ≤ ts.instant) && decide (ts.instant ≤ e.instant)
   | _, _ => true) &&
  isTimestampInTimeOfDay ts fs.timeOfDay

/-- Spec-side value of one chunk for one cell at one timestamp: the entry
of the cell's probability list at the position of the timestamp in the
chunk's own timestamp list (`0` when the chunk holds no data there). -/
def probAt (c : Chunk) (cellId : ℕ) (ts : Timestamp) : ℚ :=
  match idxOf? ts c.timestamps, alookup c.cells cellId with
  | some i, some probs => vget probs i
  | _, _ => 0

/-- Spec-side per-timestamp sum for one month: the cell's probability
values summed across the selected depth layers at that timestamp. -/
def specSumAt (mdata : MonthData) (selectedDepths : List ℕ) (cellId : ℕ)
    (ts : Timestamp) : ℚ :=
  (selectedDepths.map fun d =>
    match alookup mdata d with
    | some c => probAt c cellId ts
    | none => 0).sum

/-- Spec-side list of per-timestamp sums over all loaded months, given a
family `T` assigning each month its timestamp list. -/
def specSums (loadedData : Cache) (fs : FilterState) (selectedDepths : List ℕ)
    (cellId : ℕ) (T : Month → List Timestamp) : List ℚ :=
  loadedData.flatMap fun p =>
    ((T p.1).filter fun ts => specQualifies fs ts).map (specSumAt p.2 selectedDepths cellId)

/-! ## Helper lemmas: movement model -/

theorem collectDates_ok {store : MatrixStore} :
    ∀ {l l' : List Int}, collectDates store l = .ok l' →
      l' = l ∧ ∀ d ∈ l, store d ≠ none := by
  intro l
  induction l with
  | nil =>
    intro l' h
    simp only [collectDates] at h
    cases h
    exact ⟨rfl, by simp⟩
  | cons a rest ih =>
    intro l' h
    simp only [collectDates] at h
    cases ha : store a with
    | none => rw [ha] at h; simp at h
    | some M =>
      rw [ha] at h
      cases hrest : collectDates store rest with
      | error e => rw [hrest] at h; simp [Except.map] at h
      | ok ds =>
        rw [hrest] at h
        simp only [Except.map] at h
        cases h
        obtain ⟨hds, hall⟩ := ih hrest
        subst hds
        refine ⟨rfl, ?_⟩
        intro d hd
        cases List.mem_cons.mp hd with
        | inl h => subst h; simp [ha]
        | inr h => exact hall d h

theorem collectDates_error_of_missing {store : MatrixStore} :
    ∀ {l : List Int}, (∃ d ∈ l, store d = none) →
      ∃ d, d ∈ l ∧ store d = none ∧ collectDates store l = .error d := by
  intro l
  induction l with
  | nil => rintro ⟨d, hd, -⟩; cases hd
  | cons a rest ih =>
    rintro ⟨d, hd, hnone⟩
    cases ha : store a with
    | none => exact ⟨a, List.mem_cons_self a rest, ha, by simp [collectDates, ha]⟩
    | some M =>
      have hdr : d ∈ rest := by
        cases List.mem_cons.mp hd with
        | inl h => subst h; rw [ha] at hnone; cases hnone
        | inr h => exact h
      obtain ⟨e, he, henone, heq⟩ := ih ⟨d, hdr, hnone⟩
      exact ⟨e, List.mem_cons_of_mem _ he, henone, by simp [collectDates, ha, heq, Except.map]⟩

/-- C3: for every matrix store, selection, pivot date and window `w ≥ 1`,
if any of the `w` matrices required by the chosen direction is missing,
the calculator returns the missing-data exit reporting a date that is
indeed required and missing, and performs zero scalar multiplications. -/
theorem movement_missing_matrix_refuses (store : MatrixStore) (selectedCells : List Int)
    (t : Int) (w : ℕ) (hw : 1 ≤ w) :
    ((∃ d ∈ basinDateSeq t w, store d = none) →
      ∃ d, d ∈ basinDateSeq t w ∧ store d = none ∧
        calculateBasinAnalysisInstr store selectedCells t w = (.error d, 0)) ∧
    ((∃ d ∈ forwardDateSeq t w, store d = none) →
      ∃ d, d ∈ forwardDateSeq t w ∧ store d = none ∧
        calculateProjectionAnalysisInstr store selectedCells t w = (.error d, 0)) := by
  constructor
  · intro hex
    obtain ⟨d, hd, hn, heq⟩ := collectDates_error_of_missing hex
    exact ⟨d, hd, hn, by simp [calculateBasinAnalysisInstr, heq]⟩
  · intro hex
    obtain ⟨d, hd, hn, heq⟩ := collectDates_error_of_missing hex
    exact ⟨d, hd, hn, by simp [calculateProjectionAnalysisInstr, heq]⟩

/-- Witness for C3: a store holding no matrix at all, pivot date 0,
window 1; both directions report a missing date without computing. -/
theorem movement_missing_matrix_refuses_witness :
    (1 : ℕ) ≤ 1 ∧
    (∃ d ∈ basinDateSeq 0 1, (fun (_ : Int) => (none : Option TransMatrix)) d = none) ∧
    (∃ d ∈ forwardDateSeq 0 1, (fun (_ : Int) => (none : Option TransMatrix)) d = none) ∧
    (∃ d, d ∈ basinDateSeq 0 1 ∧ (fun (_ : Int) => (none : Option TransMatrix)) d = none ∧
      calculateBasinAnalysisInstr (fun _ => none) [0] 0 1 = (.error d, 0)) ∧
    (∃ d, d ∈ forwardDateSeq 0 1 ∧ (fun (_ : Int) => (none : Option TransMatrix)) d = none ∧
      calculateProjectionAnalysisInstr (fun _ => none) [0] 0 1 = (.error d, 0)) :=
  ⟨le_refl 1, ⟨-1, by decide, rfl⟩, ⟨0, by decide, rfl⟩,
    (movement_missing_matrix_refuses (fun _ => none) [0] 0 1 (le_refl 1)).1
      ⟨-1, by decide, rfl⟩,
    (movement_missing_matrix_refuses (fun _ => none) [0] 0 1 (le_refl 1)).2
      ⟨0, by decide, rfl⟩⟩

theorem buildIndicator_single_eq (c n : ℕ) (hc : c < n) :
    buildIndicator [(c : Int)] n = (List.replicate n (0:ℚ)).set c 1 := by
  simp [buildIndicator, indicatorStep, hc]

theorem vget_buildIndicator_single (c n k : ℕ) (hc : c < n) :
    vget (buildIndicator [(c : Int)] n) k = if k = c then 1 else 0 := by
  rw [buildIndicator_single_eq c n hc]
  by_cases hk : k = c
  · subst hk
    simp [vget, List.get?_eq_getElem?, List.getElem?_set_self', List.getElem?_replicate, hc]
  · simp only [vget, List.get?_eq_getElem?, List.getElem?_set_ne (Ne.symm hk),
      List.getElem?_replicate, if_neg hk]
    split <;> rfl

theorem matVec_indicator (M : TransMatrix) (c n : ℕ) (hc : c < n) :
    matVec n M (buildIndicator [(c : Int)] n) = (List.range n).map fun i => entry M i c := by
  unfold matVec
  refine List.map_congr_left ?_
  intro i _
  rw [Finset.sum_eq_single_of_mem c (Finset.mem_range.mpr hc)]
  · rw [vget_buildIndicator_single c n c hc, if_pos rfl, mul_one]
  · intro b _ hb
    rw [vget_buildIndicator_single c n b hc, if_neg hb, mul_zero]

/-- C1 (amended): forward projection with `w = 1` and the single selected
cell `c < N` on the matrix `M` held for the pivot date `t` returns column
`c` of `M`: `result[j] = M[j][c]` (the source computes `r = M · x`). -/
theorem forward_projection_w1 (store : MatrixStore) (M : TransMatrix) (t : Int)
    (c N : ℕ) (hM : store t = some M) (hrow : ∀ row ∈ M, row.length = N)
    (hlen : M.length = N) (hc : c < N) :
    calculateProjectionAnalysis store [(c : Int)] t 1 =
      .ok ((List.range N).map fun j => entry M j c) := by
  have hseq : forwardDateSeq t 1 = [t] := by
    unfold forwardDateSeq
    norm_num [List.range_succ]
  have hcd : collectDates store [t] = .ok [t] := by
    simp [collectDates, hM, Except.map]
  unfold calculateProjectionAnalysis calculateProjectionAnalysisInstr
  rw [hseq, hcd]
  simp only [List.head?_cons, Option.some_bind, hM, Option.getD_some, List.foldl_cons,
    List.foldl_nil, hlen]
  rw [matVec_indicator M c N hc]

/-- Witness for C1 (amended): `M = [[1/2, 1/2], [1/4, 3/4]]`, `c = 1`. -/
theorem forward_projection_w1_witness :
    ((fun d => if d = 0 then some [[1/2, 1/2], [1/4, 3/4]] else none) : MatrixStore) 0 =
      some [[1/2, 1/2], [1/4, 3/4]] ∧
    calculateProjectionAnalysis
        (fun d => if d = 0 then some [[1/2, 1/2], [1/4, 3/4]] else none) [1] 0 1 =
      .ok ((List.range 2).map fun j => entry [[1/2, 1/2], [1/4, 3/4]] j 1) := by
  constructor
  · rfl
  · exact forward_projection_w1 _ [[1/2, 1/2], [1/4, 3/4]] 0 1 2 rfl
      (by intro row hrow; simp at hrow; rcases hrow with h | h <;> simp [h]) rfl (by decide)

/-- C1 counterexample: on the non-symmetric matrix `M = [[0, 1], [0, 0]]`
held for the pivot date, forward projection with `w = 1` and selected
cell `c = 0` returns `[0, 0]`, while row 0 of `M` has `M[0][1] = 1`; so
`result[1] = M[0][1]` fails. -/
theorem forward_projection_w1_row_fails :
    calculateProjectionAnalysis (fun d => if d = 0 then some [[0, 1], [0, 0]] else none)
        [0] 0 1 = .ok [0, 0] ∧
    entry [[0, 1], [0, 0]] 0 1 = 1 ∧ (0 : ℚ) ≠ 1 := by
  refine ⟨?_, by norm_num [entry, vget], by norm_num⟩
  simp only [calculateProjectionAnalysis, calculateProjectionAnalysisInstr, forwardDateSeq]
  norm_num [List.range_succ, collectDates, buildIndicator, indicatorStep, matVec, entry, vget,
    Finset.sum_range_succ, Except.map]

/-- C2 (amended): basin attribution with `w = 1` and the single selected
cell `c < N` on the matrix `M` held for date `t - 1` returns row `c` of
`M`: `result[j] = M[c][j]` (the source computes `r[j] = Σ_i B[i][j]·x[i]`
with `B = M(t-1)`). -/
theorem basin_attribution_w1 (store : MatrixStore) (M : TransMatrix) (t : Int)
    (c N : ℕ) (hM : store (t - 1) = some M) (hrow : ∀ row ∈ M, row.length = N)
    (hlen : M.length = N) (hc : c < N) :
    calculateBasinAnalysis store [(c : Int)] t 1 =
      .ok ((List.range N).map fun j => entry M c j) := by
  have hseq : basinDateSeq t 1 = [t - 1] := by
    unfold basinDateSeq
    norm_num [List.range_succ]
  have hcd : collectDates store [t - 1] = .ok [t - 1] := by
    simp [collectDates, hM, Except.map]
  unfold calculateBasinAnalysis calculateBasinAnalysisInstr
  rw [hseq, hcd]
  simp only [List.head?_cons, Option.some_bind, hM, Option.getD_some, List.foldl_nil, hlen]
  refine congrArg Except.ok (List.map_congr_left ?_)
  intro j _
  rw [Finset.sum_eq_single_of_mem c (Finset.mem_range.mpr hc)]
  · rw [vget_buildIndicator_single c N c hc, if_pos rfl, mul_one]
  · intro b _ hb
    rw [vget_buildIndicator_single c N b hc, if_neg hb, mul_zero]

/-- Witness for C2 (amended): `M = [[1/2, 1/2], [1/4, 3/4]]`, `c = 1`,
held for date `-1` with pivot date 0. -/
theorem basin_attribution_w1_witness :
    ((fun d => if d = -1 then some [[1/2, 1/2], [1/4, 3/4]] else none) : MatrixStore) (0 - 1) =
      some [[1/2, 1/2], [1/4, 3/4]] ∧
    calculateBasinAnalysis
        (fun d => if d = -1 then some [[1/2, 1/2], [1/4, 3/4]] else none) [1] 0 1 =
      .ok ((List.range 2).map fun j => entry [[1/2, 1/2], [1/4, 3/4]] 1 j) := by
  constructor
  · rfl
  · exact basin_attribution_w1 _ [[1/2, 1/2], [1/4, 3/4]] 0 1 2 rfl
      (by intro row hrow; simp at hrow; rcases hrow with h | h <;> simp [h]) rfl (by decide)

/-- C2 counterexample: on the non-symmetric matrix `M = [[0, 1], [0, 0]]`
held for date `t - 1 = -1`, basin attribution with `w = 1` and selected
cell `c = 0` returns `[0, 1]`, while column 0 of `M` has `M[1][0] = 0`;
so `result[1] = M[1][0]` fails. -/
theorem basin_attribution_w1_column_fails :
    calculateBasinAnalysis (fun d => if d = -1 then some [[0, 1], [0, 0]] else none)
        [0] 0 1 = .ok [0, 1] ∧
    entry [[0, 1], [0, 0]] 1 0 = 0 ∧ (1 : ℚ) ≠ 0 := by
  refine ⟨?_, by norm_num [entry, vget], by norm_num⟩
  simp only [calculateBasinAnalysis, calculateBasinAnalysisInstr, basinDateSeq]
  norm_num [List.range_succ, collectDates, buildIndicator, indicatorStep, matMul, entry, vget,
    Finset.sum_range_succ, Except.map]

theorem indicatorStep_out (n : ℕ) (id : Int) (hout : id < 0 ∨ (n : Int) ≤ id)
    (x : List ℚ) : indicatorStep n x id = x := by
  unfold indicatorStep
  rcases hout with h | h
  · rw [if_pos (lt_of_lt_of_le h (Int.natCast_nonneg n)), if_neg (not_le.mpr h)]
  · rw [if_neg (not_lt.mpr h)]

theorem foldl_indicatorStep_filter (id : Int) (n : ℕ) (hout : id < 0 ∨ (n : Int) ≤ id) :
    ∀ (S : List Int) (init : List ℚ),
      (S.filter fun x => decide (x ≠ id)).foldl (indicatorStep n) init =
        S.foldl (indicatorStep n) init := by
  intro S
  induction S with
  | nil => intro init; rfl
  | cons a rest ih =>
    intro init
    by_cases ha : a = id
    · subst ha
      rw [List.filter_cons_of_neg (by simp), List.foldl_cons, indicatorStep_out n a hout]
      exact ih init
    · rw [List.filter_cons_of_pos (by simp [ha]), List.foldl_cons, List.foldl_cons]
      exact ih (indicatorStep n init a)

theorem buildIndicator_filter_out (id : Int) (n : ℕ) (hout : id < 0 ∨ (n : Int) ≤ id)
    (S : List Int) :
    buildIndicator (S.filter fun x => decide (x ≠ id)) n = buildIndicator S n :=
  foldl_indicatorStep_filter id n hout S (List.replicate n 0)

theorem buildIndicator_dim_zero (S : List Int) : buildIndicator S 0 = [] := by
  unfold buildIndicator
  have key : ∀ (l : List Int), l.foldl (indicatorStep 0) [] = [] := by
    intro l
    induction l with
    | nil => rfl
    | cons a rest ih =>
      rw [List.foldl_cons]
      have hstep : indicatorStep 0 [] a = [] := by
        unfold indicatorStep
        split
        · split
          · rfl
          · rfl
        · rfl
      rw [hstep, ih]
  exact key S

/-- C10: a selected cell id outside `[0, N)` (`N` the dimension of every
matrix the store holds) is ignored by both calculators: the result is
that of the selection with every occurrence of that id removed. -/
theorem movement_ignores_out_of_range (store : MatrixStore) (selectedCells : List Int)
    (t : Int) (w : ℕ) (N : ℕ) (id : Int)
    (hdim : ∀ d M, store d = some M → M.length = N)
    (hout : id < 0 ∨ (N : Int) ≤ id) :
    calculateProjectionAnalysisInstr store selectedCells t w =
      calculateProjectionAnalysisInstr store
        (selectedCells.filter fun x => decide (x ≠ id)) t w ∧
    calculateBasinAnalysisInstr store selectedCells t w =
      calculateBasinAnalysisInstr store
        (selectedCells.filter fun x => decide (x ≠ id)) t w := by
  constructor
  · unfold calculateProjectionAnalysisInstr
    cases hcol : collectDates store (forwardDateSeq t w) with
    | error d => simp only [hcol]
    | ok ds =>
      simp only [hcol]
      cases ds with
      | nil =>
        simp only [List.head?_nil, Option.none_bind, Option.getD_none, List.length_nil,
          buildIndicator_dim_zero]
      | cons d rest =>
        obtain ⟨hds, hall⟩ := collectDates_ok hcol
        have hd : store d ≠ none := hall d (hds ▸ List.mem_cons_self d rest)
        cases hM : store d with
        | none => exact absurd hM hd
        | some M =>
          simp only [List.head?_cons, Option.some_bind, hM, Option.getD_some, hdim d M hM,
            buildIndicator_filter_out id N hout]
  · unfold calculateBasinAnalysisInstr
    cases hcol : collectDates store (basinDateSeq t w) with
    | error d => simp only [hcol]
    | ok ds =>
      simp only [hcol]
      cases ds with
      | nil =>
        simp only [List.head?_nil, Option.none_bind, Option.getD_none, List.length_nil,
          buildIndicator_dim_zero]
      | cons d rest =>
        obtain ⟨hds, hall⟩ := collectDates_ok hcol
        have hd : store d ≠ none := hall d (hds ▸ List.mem_cons_self d rest)
        cases hM : store d with
        | none => exact absurd hM hd
        | some M =>
          simp only [List.head?_cons, Option.some_bind, hM, Option.getD_some, hdim d M hM,
            buildIndicator_filter_out id N hout]

/-- Witness for C10: a store of 2×2 matrices, selection `[0, 5]` with the
out-of-range id 5, pivot date 0, window 1. -/
theorem movement_ignores_out_of_range_witness :
    ((5 : Int) < 0 ∨ ((2 : ℕ) : Int) ≤ 5) ∧
    calculateProjectionAnalysisInstr (fun _ => some [[1/2, 1/2], [1/3, 2/3]]) [0, 5] 0 1 =
      calculateProjectionAnalysisInstr (fun _ => some [[1/2, 1/2], [1/3, 2/3]])
        (([0, 5] : List Int).filter fun x => decide (x ≠ 5)) 0 1 ∧
    calculateBasinAnalysisInstr (fun _ => some [[1/2, 1/2], [1/3, 2/3]]) [0, 5] 0 1 =
      calculateBasinAnalysisInstr (fun _ => some [[1/2, 1/2], [1/3, 2/3]])
        (([0, 5] : List Int).filter fun x => decide (x ≠ 5)) 0 1 :=
  ⟨Or.inr (by decide),
    (movement_ignores_out_of_range (fun _ => some [[1/2, 1/2], [1/3, 2/3]]) [0, 5] 0 1 2 5
      (fun d M h => by cases h; rfl) (Or.inr (by decide))).1,
    (movement_ignores_out_of_range (fun _ => some [[1/2, 1/2], [1/3, 2/3]]) [0, 5] 0 1 2 5
      (fun d M h => by cases h; rfl) (Or.inr (by decide))).2⟩

/-! ## Helper lemmas: chunk loader -/

theorem filterMap_eq_singleton {α β : Type} [DecidableEq α] (f : α → Option β) :
    ∀ (l : List α) (a : α) (c : β), l.Nodup → a ∈ l → f a = some c →
      (∀ b ∈ l, b ≠ a → f b = none) → l.filterMap f = [c] := by
  intro l
  induction l with
  | nil => intro a c _ ha; cases ha
  | cons x rest ih =>
    intro a c hnd ha hfa hothers
    rcases List.mem_cons.mp ha with hxa | har
    · subst hxa
      rw [List.filterMap_cons_some hfa]
      have hrest : rest.filterMap f = [] := by
        rw [List.filterMap_eq_nil_iff]
        intro b hb
        exact hothers b (List.mem_cons_of_mem _ hb)
          (fun hba => (List.nodup_cons.mp hnd).1 (hba ▸ hb))
      rw [hrest]
    · have hfx : f x = none :=
        hothers x (List.mem_cons_self x rest) (fun hxa => by
          subst hxa; exact (List.nodup_cons.mp hnd).1 har)
      rw [List.filterMap_cons_none hfx]
      exact ih a c (List.nodup_cons.mp hnd).2 har hfa
        (fun b hb hba => hothers b (List.mem_cons_of_mem _ hb) hba)

theorem flatMap_eq_single {α β : Type} (g : α → List β) :
    ∀ (l : List α) (a : α), l.Nodup → a ∈ l →
      (∀ b ∈ l, b ≠ a → g b = []) → l.flatMap g = g a := by
  intro l
  induction l with
  | nil => intro a _ ha; cases ha
  | cons x rest ih =>
    intro a hnd ha hothers
    rcases List.mem_cons.mp ha with hxa | har
    · subst hxa
      have hrest : rest.flatMap g = [] := by
        rw [List.flatMap_eq_nil_iff]
        intro b hb
        exact hothers b (List.mem_cons_of_mem _ hb)
          (fun hba => (List.nodup_cons.mp hnd).1 (hba ▸ hb))
      rw [List.flatMap_cons, hrest, List.append_nil]
    · have hgx : g x = [] :=
        hothers x (List.mem_cons_self x rest) (fun hxa => by
          subst hxa; exact (List.nodup_cons.mp hnd).1 har)
      rw [List.flatMap_cons, hgx, List.nil_append]
      exact ih a (List.nodup_cons.mp hnd).2 har
        (fun b hb hba => hothers b (List.mem_cons_of_mem _ hb) hba)

theorem getMissingChunks_eq_nil_iff (sid : String) (months : List Month)
    (depthBins : List ℕ) (cache : Cache) :
    getMissingChunks sid months depthBins cache = [] ↔
      ∀ m ∈ months, ∀ d ∈ depthBins, chunkAbsent cache m d = false := by
  unfold getMissingChunks
  rw [List.flatMap_eq_nil_iff]
  constructor
  · intro h m hm d hd
    have := (List.filterMap_eq_nil_iff.mp (h m hm)) d hd
    by_cases habs : chunkAbsent cache m d
    · rw [if_pos habs] at this; cases this
    · exact Bool.not_eq_true _ ▸ (by simpa using habs)
  · intro h m hm
    rw [List.filterMap_eq_nil_iff]
    intro d hd
    rw [h m hm d hd]
    rfl

/-- C6: over duplicate-free required months and depths (the requirement
lists are sets: the month walk emits distinct months and the depth bins
pass through a `Set`), `getMissingChunks` is empty iff every required
(month, depth) pair has a cache entry; and when exactly one required pair
is absent, it returns exactly that pair. -/
theorem missing_chunks_complete_iff (sid : String) (months : List Month)
    (depthBins : List ℕ) (cache : Cache)
    (hm : months.Nodup) (hd : depthBins.Nodup) :
    (getMissingChunks sid months depthBins cache = [] ↔
      ∀ m ∈ months, ∀ d ∈ depthBins, chunkAbsent cache m d = false) ∧
    (∀ m0 ∈ months, ∀ d0 ∈ depthBins, chunkAbsent cache m0 d0 = true →
      (∀ m ∈ months, ∀ d ∈ depthBins, (m, d) ≠ (m0, d0) → chunkAbsent cache m d = false) →
      getMissingChunks sid months depthBins cache = [(m0, d0)]) := by
  refine ⟨getMissingChunks_eq_nil_iff sid months depthBins cache, ?_⟩
  intro m0 hm0 d0 hd0 habs hothers
  unfold getMissingChunks
  have hinner : (depthBins.filterMap fun depth =>
      if chunkAbsent cache m0 depth then some (m0, depth) else none) = [(m0, d0)] := by
    refine filterMap_eq_singleton _ depthBins d0 (m0, d0) hd hd0 (by rw [if_pos habs]) ?_
    intro b hb hbd
    rw [if_neg]
    rw [hothers m0 hm0 b hb (by simp [hbd])]
    simp
  rw [flatMap_eq_single _ months m0 hm hm0 ?_, hinner]
  intro b hb hbm
  rw [List.filterMap_eq_nil_iff]
  intro d hd2
  rw [hothers b hb d hd2 (by simp [hbm]), if_neg (by simp)]

/-- Witness for C6: months 2024-01, 2024-02, depths 25 and 50, a cache
holding three of the four chunks; exactly ((2024, 2), 50) is reported. -/
theorem missing_chunks_complete_iff_witness :
    ([((2024 : ℕ), (1 : ℕ)), (2024, 2)].Nodup ∧ ([25, 50] : List ℕ).Nodup) ∧
    getMissingChunks "s" [(2024, 1), (2024, 2)] [25, 50]
        [((2024, 1), [(25, ⟨[], []⟩), (50, ⟨[], []⟩)]), ((2024, 2), [(25, ⟨[], []⟩)])] =
      [((2024, 2), 50)] :=
  ⟨⟨by decide, by decide⟩,
    (missing_chunks_complete_iff "s" [(2024, 1), (2024, 2)] [25, 50]
        [((2024, 1), [(25, ⟨[], []⟩), (50, ⟨[], []⟩)]), ((2024, 2), [(25, ⟨[], []⟩)])]
        (by decide) (by decide)).2
      (2024, 2) (by decide) 50 (by decide) (by decide) (by decide)⟩

theorem alookup_aupdate_self {α β : Type} [DecidableEq α] :
    ∀ (l : List (α × β)) (k : α) (v : β), alookup (aupdate l k v) k = some v := by
  intro l
  induction l with
  | nil => intro k v; simp [aupdate, alookup]
  | cons p rest ih =>
    intro k v
    by_cases hp : p.1 = k
    · simp [aupdate, hp, alookup]
    · simp [aupdate, hp, alookup, ih]

theorem alookup_aupdate_ne {α β : Type} [DecidableEq α] :
    ∀ (l : List (α × β)) (k k' : α) (v : β), k' ≠ k →
      alookup (aupdate l k v) k' = alookup l k' := by
  intro l
  induction l with
  | nil => intro k k' v hne; simp [aupdate, alookup, Ne.symm hne]
  | cons p rest ih =>
    intro k k' v hne
    by_cases hp : p.1 = k
    · simp [aupdate, hp, alookup, Ne.symm hne, hp ▸ hne]
    · by_cases hpk : p.1 = k'
      · simp [aupdate, hp, alookup, hpk, hne]
      · simp [aupdate, hp, alookup, hpk, ih k k' v hne]

theorem alookup_append_of_some {α β : Type} [DecidableEq α] :
    ∀ (l1 l2 : List (α × β)) (k : α) (v : β), alookup l1 k = some v →
      alookup (l1 ++ l2) k = some v := by
  intro l1
  induction l1 with
  | nil => intro l2 k v h; cases h
  | cons p rest ih =>
    intro l2 k v h
    by_cases hp : p.1 = k
    · simp only [alookup, if_pos hp] at h
      simp [List.cons_append, alookup, hp, h]
    · simp only [alookup, if_neg hp] at h
      simp [List.cons_append, alookup, hp, ih l2 k v h]

theorem chunkAbsent_cacheInsert_self (c : Cache) (m : Month) (d : ℕ) (ch : Chunk) :
    chunkAbsent (cacheInsert c m d ch) m d = false := by
  unfold cacheInsert
  cases h : alookup c m with
  | none => simp [chunkAbsent, alookup_aupdate_self, alookup]
  | some inner => simp [chunkAbsent, alookup_aupdate_self]

theorem chunkAbsent_false_elim (c : Cache) (m : Month) (d : ℕ)
    (h : chunkAbsent c m d = false) :
    ∃ inner ch, alookup c m = some inner ∧ alookup inner d = some ch := by
  unfold chunkAbsent at h
  cases hm : alookup c m with
  | none => simp only [hm] at h; exact Bool.noConfusion h
  | some inner =>
    simp only [hm] at h
    cases hd : alookup inner d with
    | none => simp only [hd, Option.isNone_none] at h; exact Bool.noConfusion h
    | some ch => exact ⟨inner, ch, rfl, hd⟩

theorem chunkAbsent_false_intro (c : Cache) (m : Month) (d : ℕ) (inner : MonthData)
    (ch : Chunk) (hm : alookup c m = some inner) (hd : alookup inner d = some ch) :
    chunkAbsent c m d = false := by
  simp [chunkAbsent, hm, hd]

theorem chunkAbsent_cacheInsert_preserve (c : Cache) (m1 : Month) (d1 : ℕ) (ch : Chunk)
    (m : Month) (d : ℕ) (h : chunkAbsent c m d = false) :
    chunkAbsent (cacheInsert c m1 d1 ch) m d = false := by
  obtain ⟨inner, ch0, hm, hd⟩ := chunkAbsent_false_elim c m d h
  unfold cacheInsert
  by_cases hmm : m1 = m
  · subst hmm
    rw [hm]
    by_cases hdd : d1 = d
    · subst hdd
      exact chunkAbsent_false_intro _ _ _ _ ch (alookup_aupdate_self _ _ _)
        (alookup_aupdate_self _ _ _)
    · refine chunkAbsent_false_intro _ _ _ _ ch0 (alookup_aupdate_self _ _ _) ?_
      rw [alookup_aupdate_ne _ _ _ _ (Ne.symm hdd)]
      exact hd
  · cases hm1 : alookup c m1 with
    | none =>
      refine chunkAbsent_false_intro _ _ _ inner ch0 ?_ hd
      rw [alookup_aupdate_ne _ _ _ _ (Ne.symm hmm)]
      exact hm
    | some inner1 =>
      refine chunkAbsent_false_intro _ _ _ inner ch0 ?_ hd
      rw [alookup_aupdate_ne _ _ _ _ (Ne.symm hmm)]
      exact hm

theorem chunkAbsent_loadChunkFold_preserve (oracle : FetchOracle) (m : Month) (d : ℕ) :
    ∀ (chunks : List (Month × ℕ)) (acc : Cache × ℕ), chunkAbsent acc.1 m d = false →
      chunkAbsent ((chunks.foldl (loadChunkStep oracle) acc).1) m d = false := by
  intro chunks
  induction chunks with
  | nil => intro acc h; exact h
  | cons c rest ih =>
    intro acc h
    rw [List.foldl_cons]
    refine ih (loadChunkStep oracle acc c) ?_
    unfold loadChunkStep
    cases ho : oracle c.1 c.2 with
    | none => exact h
    | some chunk => exact chunkAbsent_cacheInsert_preserve acc.1 c.1 c.2 chunk m d h

theorem chunkAbsent_loadChunkFold_mem (oracle : FetchOracle) (m : Month) (d : ℕ) :
    ∀ (chunks : List (Month × ℕ)) (acc : Cache × ℕ), (m, d) ∈ chunks →
      oracle m d ≠ none →
      chunkAbsent ((chunks.foldl (loadChunkStep oracle) acc).1) m d = false := by
  intro chunks
  induction chunks with
  | nil => intro acc hmem; cases hmem
  | cons c rest ih =>
    intro acc hmem hsucc
    rw [List.foldl_cons]
    rcases List.mem_cons.mp hmem with hc | hr
    · subst hc
      cases ho : oracle m d with
      | none => exact absurd ho hsucc
      | some chunk =>
        refine chunkAbsent_loadChunkFold_preserve oracle m d rest _ ?_
        unfold loadChunkStep
        rw [ho]
        exact chunkAbsent_cacheInsert_self acc.1 m d chunk
    · exact ih (loadChunkStep oracle acc c) hr hsucc

theorem chunkAbsent_mergeMonthStep_preserve (c : Cache) (p : Month × MonthData)
    (m : Month) (d : ℕ) (h : chunkAbsent c m d = false) :
    chunkAbsent (mergeMonthStep c p) m d = false := by
  unfold mergeMonthStep
  have hens : chunkAbsent
      (match alookup c p.1 with
       | none => c ++ [(p.1, ([] : MonthData))]
       | some _ => c) m d = false := by
    cases hp : alookup c p.1 with
    | none =>
      obtain ⟨inner, ch, hm, hd⟩ := chunkAbsent_false_elim c m d h
      exact chunkAbsent_false_intro _ _ _ inner ch (alookup_append_of_some _ _ _ _ hm) hd
    | some inner1 => exact h
  revert hens
  generalize (match alookup c p.1 with
    | none => c ++ [(p.1, ([] : MonthData))]
    | some _ => c) = ensured
  intro hens
  have key : ∀ (qs : List (ℕ × Chunk)) (acc : Cache), chunkAbsent acc m d = false →
      chunkAbsent (qs.foldl (fun mAcc q => cacheInsert mAcc p.1 q.1 q.2) acc) m d = false := by
    intro qs
    induction qs with
    | nil => intro acc ha; exact ha
    | cons q rest ih =>
      intro acc ha
      rw [List.foldl_cons]
      exact ih _ (chunkAbsent_cacheInsert_preserve acc p.1 q.1 q.2 m d ha)
  show chunkAbsent (p.2.foldl (fun mAcc q => cacheInsert mAcc p.1 q.1 q.2) ensured) m d = false
  exact key p.2 ensured hens

theorem chunkAbsent_merge_preserve_prev (m : Month) (d : ℕ) :
    ∀ (newData : Cache) (prev : Cache), chunkAbsent prev m d = false →
      chunkAbsent (mergeLoadedData prev newData) m d = false := by
  intro newData
  induction newData with
  | nil => intro prev h; exact h
  | cons p rest ih =>
    intro prev h
    unfold mergeLoadedData
    rw [List.foldl_cons]
    exact ih (mergeMonthStep prev p) (chunkAbsent_mergeMonthStep_preserve prev p m d h)

theorem chunkAbsent_monthFold_mem (m1 : Month) (d : ℕ) (ch : Chunk) :
    ∀ (qs : List (ℕ × Chunk)) (acc : Cache), alookup qs d = some ch →
      chunkAbsent (qs.foldl (fun mAcc q => cacheInsert mAcc m1 q.1 q.2) acc) m1 d = false := by
  intro qs
  induction qs with
  | nil => intro acc hq; cases hq
  | cons q rest ih =>
    intro acc hq
    rw [List.foldl_cons]
    by_cases hqd : q.1 = d
    · have key : ∀ (qs2 : List (ℕ × Chunk)) (acc2 : Cache), chunkAbsent acc2 m1 d = false →
          chunkAbsent (qs2.foldl (fun mAcc q2 => cacheInsert mAcc m1 q2.1 q2.2) acc2) m1 d = false := by
        intro qs2
        induction qs2 with
        | nil => intro acc2 ha; exact ha
        | cons q2 rest2 ih2 =>
          intro acc2 ha
          rw [List.foldl_cons]
          exact ih2 _ (chunkAbsent_cacheInsert_preserve acc2 m1 q2.1 q2.2 m1 d ha)
      refine key rest _ ?_
      rw [← hqd]
      exact chunkAbsent_cacheInsert_self acc m1 q.1 q.2
    · simp only [alookup, if_neg hqd] at hq
      exact ih _ hq

theorem chunkAbsent_merge_of_new (m : Month) (d : ℕ) :
    ∀ (newData : Cache) (prev : Cache), chunkAbsent newData m d = false →
      chunkAbsent (mergeLoadedData prev newData) m d = false := by
  intro newData
  induction newData with
  | nil =>
    intro prev h
    simp [chunkAbsent, alookup] at h
  | cons p rest ih =>
    intro prev h
    unfold mergeLoadedData
    rw [List.foldl_cons]
    by_cases hp : p.1 = m
    · obtain ⟨inner, ch, hm, hd⟩ := chunkAbsent_false_elim (p :: rest) m d h
      simp only [alookup, if_pos hp] at hm
      cases hm
      have hstep : chunkAbsent (mergeMonthStep prev p) m d = false := by
        unfold mergeMonthStep
        rw [← hp]
        exact chunkAbsent_monthFold_mem p.1 d ch p.2 _ hd
      have key : ∀ (nd2 : Cache) (acc : Cache), chunkAbsent acc m d = false →
          chunkAbsent (nd2.foldl mergeMonthStep acc) m d = false := by
        intro nd2
        induction nd2 with
        | nil => intro acc ha; exact ha
        | cons p2 rest2 ih2 =>
          intro acc ha
          rw [List.foldl_cons]
          exact ih2 _ (chunkAbsent_mergeMonthStep_preserve acc p2 m d ha)
      exact key rest _ hstep
    · have hrest : chunkAbsent rest m d = false := by
        unfold chunkAbsent at h ⊢
        simp only [alookup, if_neg hp] at h
        exact h
      exact ih (mergeMonthStep prev p) hrest

theorem mem_getMissingChunks (sid : String) (months : List Month) (depthBins : List ℕ)
    (cache : Cache) (m : Month) (d : ℕ) (hm : m ∈ months) (hd : d ∈ depthBins)
    (habs : chunkAbsent cache m d = true) :
    (m, d) ∈ getMissingChunks sid months depthBins cache := by
  unfold getMissingChunks
  refine List.mem_flatMap.mpr ⟨m, hm, ?_⟩
  refine List.mem_filterMap.mpr ⟨d, hd, ?_⟩
  rw [if_pos habs]

/-- C7: with a cache already holding every (required month, required
depth) chunk, `loadRequiredData` returns the empty result and issues zero
fetches; consequently, when every fetch of a first call succeeds, a
second call after merging the first call's result is again the empty
result with zero fetches. -/
theorem resolve_complete_noop (oracle : FetchOracle) (sid : String) (fs : FilterState)
    (cache : Cache) :
    ((∀ m ∈ getRequiredMonths fs.dateStart fs.dateEnd,
        ∀ d ∈ getRequiredDepthBins fs.depthBins, chunkAbsent cache m d = false) →
      loadRequiredDataInstr oracle sid fs cache = ([], 0)) ∧
    ((∀ md ∈ getMissingChunks sid (getRequiredMonths fs.dateStart fs.dateEnd)
          (getRequiredDepthBins fs.depthBins) cache,
        oracle md.1 md.2 ≠ none) →
      loadRequiredDataInstr oracle sid fs
        (mergeLoadedData cache (loadRequiredDataInstr oracle sid fs cache).1) = ([], 0)) := by
  have part1 : ∀ (c : Cache),
      (∀ m ∈ getRequiredMonths fs.dateStart fs.dateEnd,
        ∀ d ∈ getRequiredDepthBins fs.depthBins, chunkAbsent c m d = false) →
      loadRequiredDataInstr oracle sid fs c = ([], 0) := by
    intro c hc
    by_cases hreq : getRequiredMonths fs.dateStart fs.dateEnd = [] ∨
        getRequiredDepthBins fs.depthBins = []
    · simp only [loadRequiredDataInstr]
      rw [if_pos hreq]
    · have hmiss : getMissingChunks sid (getRequiredMonths fs.dateStart fs.dateEnd)
          (getRequiredDepthBins fs.depthBins) c = [] :=
        (getMissingChunks_eq_nil_iff _ _ _ _).mpr hc
      simp only [loadRequiredDataInstr]
      rw [if_neg hreq, hmiss, if_pos rfl]
  refine ⟨part1 cache, ?_⟩
  intro hsucc
  by_cases hreq : getRequiredMonths fs.dateStart fs.dateEnd = [] ∨
      getRequiredDepthBins fs.depthBins = []
  · simp only [loadRequiredDataInstr]
    rw [if_pos hreq]
  · by_cases hmiss : getMissingChunks sid (getRequiredMonths fs.dateStart fs.dateEnd)
        (getRequiredDepthBins fs.depthBins) cache = []
    · have hfirst : loadRequiredDataInstr oracle sid fs cache = ([], 0) := by
        simp only [loadRequiredDataInstr]
        rw [if_neg hreq, hmiss, if_pos rfl]
      rw [hfirst]
      exact hfirst
    · have hfirst : loadRequiredDataInstr oracle sid fs cache =
          loadDataChunksInstr oracle sid (getMissingChunks sid
            (getRequiredMonths fs.dateStart fs.dateEnd)
            (getRequiredDepthBins fs.depthBins) cache) := by
        simp only [loadRequiredDataInstr]
        rw [if_neg hreq, if_neg hmiss]
      rw [hfirst]
      refine part1 _ ?_
      intro m hm d hd
      by_cases habs : chunkAbsent cache m d = true
      · have hmem := mem_getMissingChunks sid _ _ cache m d hm hd habs
        have hsu := hsucc (m, d) hmem
        have hnew : chunkAbsent (loadDataChunksInstr oracle sid
            (getMissingChunks sid (getRequiredMonths fs.dateStart fs.dateEnd)
              (getRequiredDepthBins fs.depthBins) cache)).1 m d = false := by
          unfold loadDataChunksInstr
          exact chunkAbsent_loadChunkFold_mem oracle m d _ ([], 0) hmem hsu
        exact chunkAbsent_merge_of_new m d _ cache hnew
      · rw [Bool.not_eq_true] at habs
        exact chunkAbsent_merge_preserve_prev m d _ cache habs

/-- Witness for C7: a filter requiring months 2024-01, 2024-02 and depth
bins 25, 50, with a cache already holding all four chunks; the resolver
returns the empty result with zero fetches, and so does a second call
after merging. -/
theorem resolve_complete_noop_witness :
    (∀ m ∈ getRequiredMonths (some ⟨2024, 1, 15, 0⟩) (some ⟨2024, 2, 10, 100⟩),
      ∀ d ∈ getRequiredDepthBins [(50, [25, 50])],
        chunkAbsent
          [((2024, 1), [(25, ⟨[], []⟩), (50, ⟨[], []⟩)]),
           ((2024, 2), [(25, ⟨[], []⟩), (50, ⟨[], []⟩)])] m d = false) ∧
    loadRequiredDataInstr (fun _ _ => none) "s"
        ⟨[(50, [25, 50])], some ⟨2024, 1, 15, 0⟩, some ⟨2024, 2, 10, 100⟩, []⟩
        [((2024, 1), [(25, ⟨[], []⟩), (50, ⟨[], []⟩)]),
         ((2024, 2), [(25, ⟨[], []⟩), (50, ⟨[], []⟩)])] = ([], 0) ∧
    loadRequiredDataInstr (fun _ _ => none) "s"
        ⟨[(50, [25, 50])], some ⟨2024, 1, 15, 0⟩, some ⟨2024, 2, 10, 100⟩, []⟩
        (mergeLoadedData
          [((2024, 1), [(25, ⟨[], []⟩), (50, ⟨[], []⟩)]),
           ((2024, 2), [(25, ⟨[], []⟩), (50, ⟨[], []⟩)])]
          (loadRequiredDataInstr (fun _ _ => none) "s"
            ⟨[(50, [25, 50])], some ⟨2024, 1, 15, 0⟩, some ⟨2024, 2, 10, 100⟩, []⟩
            [((2024, 1), [(25, ⟨[], []⟩), (50, ⟨[], []⟩)]),
             ((2024, 2), [(25, ⟨[], []⟩), (50, ⟨[], []⟩)])]).1) = ([], 0) :=
  ⟨by decide,
    (resolve_complete_noop (fun _ _ => none) "s"
      ⟨[(50, [25, 50])], some ⟨2024, 1, 15, 0⟩, some ⟨2024, 2, 10, 100⟩, []⟩
      [((2024, 1), [(25, ⟨[], []⟩), (50, ⟨[], []⟩)]),
       ((2024, 2), [(25, ⟨[], []⟩), (50, ⟨[], []⟩)])]).1 (by decide),
    (resolve_complete_noop (fun _ _ => none) "s"
      ⟨[(50, [25, 50])], some ⟨2024, 1, 15, 0⟩, some ⟨2024, 2, 10, 100⟩, []⟩
      [((2024, 1), [(25, ⟨[], []⟩), (50, ⟨[], []⟩)]),
       ((2024, 2), [(25, ⟨[], []⟩), (50, ⟨[], []⟩)])]).2 (by decide)⟩

/-! ## Helper lemmas: risk aggregator -/

/-- C5 counterexample: with the interval given in the claim as
[06:00, 10:00), a timestamp whose wall-clock time of day is exactly the
interval end 10:00 (600 minutes) is classified as within by both filter
sites of the source, although it is outside the half-open interval. -/
theorem time_of_day_end_qualifies :
    isTimestampInTimeOfDay ⟨0, 600⟩ [(360, 600)] = true ∧
    filterTimestampsByTimeOfDay ⟨[], none, none, [(360, 600)]⟩ [⟨0, 600⟩] = [⟨0, 600⟩] ∧
    ¬(600 < 600) :=
  ⟨rfl, rfl, by decide⟩

/-- C5 (amended): a timestamp qualifies iff its local wall-clock time of
day falls in at least one configured interval, each interval being closed
at both ends (a time equal to an interval's end qualifies); an empty
interval set makes every timestamp qualify; the classification depends
only on the time of day (07:30 within, 11:00 outside [06:00, 10:00] for
every instant) and on the time-of-day ranges alone, not on the date
range. -/
theorem time_of_day_classification :
    (∀ (ts : Timestamp) (ranges : List (ℕ × ℕ)),
      isTimestampInTimeOfDay ts ranges = true ↔
        (ranges = [] ∨ ∃ r ∈ ranges, r.1 ≤ ts.todMinutes ∧ ts.todMinutes ≤ r.2)) ∧
    (∀ (fs : FilterState) (l : List Timestamp),
      filterTimestampsByTimeOfDay fs l =
        l.filter fun ts => isTimestampInTimeOfDay ts fs.timeOfDay) ∧
    (∀ (i1 i2 : Int),
      isTimestampInTimeOfDay ⟨i1, 450⟩ [(360, 600)] = true ∧
      isTimestampInTimeOfDay ⟨i2, 660⟩ [(360, 600)] = false) := by
  refine ⟨?_, ?_, fun i1 i2 => ⟨rfl, rfl⟩⟩
  · intro ts ranges
    by_cases hr : ranges = []
    · simp [isTimestampInTimeOfDay, hr]
    · simp [isTimestampInTimeOfDay, hr, List.any_eq_true]
  · intro fs l
    by_cases hr : fs.timeOfDay = []
    · simp [filterTimestampsByTimeOfDay, isTimestampInTimeOfDay, hr]
    · unfold filterTimestampsByTimeOfDay
      rw [if_neg hr]
      refine List.filter_congr ?_
      intro ts _
      unfold isTimestampInTimeOfDay
      rw [if_neg hr]

/-- C8: a cell whose max-depth category selects an empty list of depth
layers has no computable risk: the cell is absent from the risk object,
which is distinct from a risk value of zero. -/
theorem empty_depth_selection_no_risk (loadedData : Cache) (cellMaxDepths : List ℕ)
    (fs : FilterState) (cellId : ℕ) (cat : ℕ)
    (hcat : getCellMaxDepth cellMaxDepths cellId = some cat) (hcat0 : cat ≠ 0)
    (hsel : getSelectedDepthsForCell fs cat = []) :
    cellMinimumRisk loadedData cellMaxDepths fs cellId = none ∧
    cellMinimumRisk loadedData cellMaxDepths fs cellId ≠ some 0 := by
  have h : cellMinimumRisk loadedData cellMaxDepths fs cellId = none := by
    unfold cellMinimumRisk
    simp only [hcat, if_neg hcat0, hsel]
  exact ⟨h, by rw [h]; simp⟩

/-- Witness for C8: category 50 selects no depth layers although a chunk
with data for the cell is loaded. -/
theorem empty_depth_selection_no_risk_witness :
    getCellMaxDepth [50] 0 = some 50 ∧ (50 : ℕ) ≠ 0 ∧
    getSelectedDepthsForCell ⟨[(50, [])], none, none, []⟩ 50 = [] ∧
    cellMinimumRisk [((2024, 1), [(25, ⟨[⟨0, 0⟩], [(0, [1/2])]⟩)])] [50]
        ⟨[(50, [])], none, none, []⟩ 0 = none ∧
    cellMinimumRisk [((2024, 1), [(25, ⟨[⟨0, 0⟩], [(0, [1/2])]⟩)])] [50]
        ⟨[(50, [])], none, none, []⟩ 0 ≠ some 0 :=
  ⟨rfl, by decide, rfl,
    (empty_depth_selection_no_risk [((2024, 1), [(25, ⟨[⟨0, 0⟩], [(0, [1/2])]⟩)])] [50]
      ⟨[(50, [])], none, none, []⟩ 0 50 rfl (by decide) rfl).1,
    (empty_depth_selection_no_risk [((2024, 1), [(25, ⟨[⟨0, 0⟩], [(0, [1/2])]⟩)])] [50]
      ⟨[(50, [])], none, none, []⟩ 0 50 rfl (by decide) rfl).2⟩

/-- C9: the candidate timestamps of a month come solely from the chunk of
the first selected depth layer; a loaded month whose chunk for that first
depth is absent contributes nothing to the cell's risk — removing the
whole month entry leaves the result unchanged, even when chunks for the
other selected depth layers are loaded for that month. -/
theorem first_depth_chunk_gates_month (pre post : Cache) (m : Month) (mdata : MonthData)
    (cellMaxDepths : List ℕ) (fs : FilterState) (cellId : ℕ) (cat : ℕ) (d0 : ℕ)
    (restDepths : List ℕ)
    (hcat : getCellMaxDepth cellMaxDepths cellId = some cat) (hcat0 : cat ≠ 0)
    (hsel : getSelectedDepthsForCell fs cat = d0 :: restDepths)
    (habs : alookup mdata d0 = none) :
    cellMinimumRisk (pre ++ (m, mdata) :: post) cellMaxDepths fs cellId =
      cellMinimumRisk (pre ++ post) cellMaxDepths fs cellId := by
  have hmp : monthProbs fs cellId (d0 :: restDepths) mdata = [] := by
    unfold monthProbs
    simp [habs]
  unfold cellMinimumRisk
  simp only [hcat, if_neg hcat0, hsel, List.flatMap_append, List.flatMap_cons, hmp,
    List.nil_append]

/-- Witness for C9: depth layers [25, 50] selected; the month 2024-01
holds only the depth-50 chunk (with data for the cell), so it contributes
nothing: the risk equals that of the cache without that month. -/
theorem first_depth_chunk_gates_month_witness :
    getCellMaxDepth [50] 0 = some 50 ∧
    getSelectedDepthsForCell ⟨[(50, [25, 50])], none, none, []⟩ 50 = [25, 50] ∧
    alookup [(50, (⟨[⟨0, 0⟩], [(0, [1/20])]⟩ : Chunk))] 25 = none ∧
    cellMinimumRisk
        ([] ++ ((2024, 1), [(50, (⟨[⟨0, 0⟩], [(0, [1/20])]⟩ : Chunk))]) ::
          [((2024, 2), [(25, (⟨[⟨0, 0⟩], [(0, [1/4])]⟩ : Chunk))])]) [50]
        ⟨[(50, [25, 50])], none, none, []⟩ 0 =
      cellMinimumRisk ([] ++ [((2024, 2), [(25, (⟨[⟨0, 0⟩], [(0, [1/4])]⟩ : Chunk))])]) [50]
        ⟨[(50, [25, 50])], none, none, []⟩ 0 :=
  ⟨rfl, rfl, rfl,
    first_depth_chunk_gates_month [] [((2024, 2), [(25, ⟨[⟨0, 0⟩], [(0, [1/4])]⟩)])]
      (2024, 1) [(50, ⟨[⟨0, 0⟩], [(0, [1/20])]⟩)] [50]
      ⟨[(50, [25, 50])], none, none, []⟩ 0 50 25 [50] rfl (by decide) rfl rfl⟩

theorem filters_compose (fs : FilterState) (l : List Timestamp) :
    filterTimestampsByTimeOfDay fs (filterTimestampsByDateRange fs l) =
      l.filter fun ts => specQualifies fs ts := by
  unfold filterTimestampsByTimeOfDay filterTimestampsByDateRange specQualifies
    isTimestampInTimeOfDay
  by_cases htod : fs.timeOfDay = [] <;>
    cases hs : fs.dateStart <;> cases he : fs.dateEnd <;>
      simp [htod, List.filter_filter, Bool.and_comm]

theorem filterMapEqMap {α β : Type} (f : α → Option β) (g : α → β) :
    ∀ (l : List α), (∀ a ∈ l, f a = some (g a)) → l.filterMap f = l.map g := by
  intro l
  induction l with
  | nil => intro _; rfl
  | cons a rest ih =>
    intro h
    rw [List.filterMap_cons_some (h a (List.mem_cons_self a rest)), List.map_cons,
      ih (fun b hb => h b (List.mem_cons_of_mem _ hb))]

theorem idxOf?_mem {α : Type} [DecidableEq α] (a : α) :
    ∀ (l : List α), a ∈ l → ∃ i, idxOf? a l = some i ∧ i < l.length := by
  intro l
  induction l with
  | nil => intro h; cases h
  | cons b rest ih =>
    intro h
    by_cases hb : b = a
    · exact ⟨0, by simp [idxOf?, hb], by simp⟩
    · have har : a ∈ rest := by
        rcases List.mem_cons.mp h with h1 | h1
        · exact absurd h1.symm hb
        · exact h1
      obtain ⟨i, hi, hlt⟩ := ih har
      exact ⟨i + 1, by simp [idxOf?, hb, hi], by simpa using Nat.succ_lt_succ hlt⟩

theorem flatMapCongr {α β : Type} (f g : α → List β) :
    ∀ (l : List α), (∀ a ∈ l, f a = g a) → l.flatMap f = l.flatMap g := by
  intro l
  induction l with
  | nil => intro _; rfl
  | cons a rest ih =>
    intro h
    rw [List.flatMap_cons, List.flatMap_cons, h a (List.mem_cons_self a rest),
      ih (fun b hb => h b (List.mem_cons_of_mem _ hb))]

theorem depthFold_sum (mdata : MonthData) (cellId : ℕ) (i : ℕ) :
    ∀ (depths : List ℕ),
      (∀ d ∈ depths, ∃ c, alookup mdata d = some c ∧
        ∃ probs, alookup c.cells cellId = some probs ∧ i < probs.length) →
      ∀ (s : ℚ) (b : Bool),
        depths.foldl
          (fun acc depth =>
            match alookup mdata depth with
            | none => acc
            | some depthData =>
              match alookup depthData.cells cellId with
              | none => acc
              | some cellProbabilities =>
                if i < cellProbabilities.length then
                  (acc.1 + vget cellProbabilities i, true)
                else acc)
          (s, b) =
        (s + (depths.map fun d =>
          match alookup mdata d with
          | none => 0
          | some c =>
            match alookup c.cells cellId with
            | none => 0
            | some probs => vget probs i).sum, b || !depths.isEmpty) := by
  intro depths
  induction depths with
  | nil => intro _ s b; simp
  | cons d ds ih =>
    intro H s b
    obtain ⟨c, hc, probs, hp, hi⟩ := H d (List.mem_cons_self d ds)
    rw [List.foldl_cons]
    have hstep : (match alookup mdata d with
        | none => ((s, b) : ℚ × Bool)
        | some depthData =>
          match alookup depthData.cells cellId with
          | none => (s, b)
          | some cellProbabilities =>
            if i < cellProbabilities.length then
              ((s, b).1 + vget cellProbabilities i, true)
            else (s, b)) = (s + vget probs i, true) := by
      simp only [hc, hp, if_pos hi]
    rw [hstep, ih (fun d2 hd2 => H d2 (List.mem_cons_of_mem _ hd2)) (s + vget probs i) true]
    simp [hc, hp, add_assoc]

theorem specSumAt_eq_idx (mdata : MonthData) (cellId : ℕ) (ts : Timestamp)
    (L : List Timestamp) (i : ℕ) (hidx : idxOf? ts L = some i) :
    ∀ (depths : List ℕ),
      (∀ d ∈ depths, ∃ c, alookup mdata d = some c ∧ c.timestamps = L ∧
        ∃ probs, alookup c.cells cellId = some probs) →
      specSumAt mdata depths cellId ts =
        (depths.map fun d =>
          match alookup mdata d with
          | none => 0
          | some c =>
            match alookup c.cells cellId with
            | none => 0
            | some probs => vget probs i).sum := by
  intro depths
  induction depths with
  | nil => intro _; rfl
  | cons d ds ih =>
    intro H
    obtain ⟨c, hc, hts, probs, hp⟩ := H d (List.mem_cons_self d ds)
    unfold specSumAt
    rw [List.map_cons, List.map_cons, List.sum_cons, List.sum_cons]
    have hterm : (match alookup mdata d with
        | some c => probAt c cellId ts
        | none => (0 : ℚ)) = vget probs i := by
      simp only [hc]
      unfold probAt
      rw [hts, hidx]
      simp only [hp]
    have hterm2 : (match alookup mdata d with
        | none => (0 : ℚ)
        | some c =>
          match alookup c.cells cellId with
          | none => 0
          | some probs => vget probs i) = vget probs i := by
      simp only [hc, hp]
    rw [hterm, hterm2]
    have ihh := ih (fun d2 hd2 => H d2 (List.mem_cons_of_mem _ hd2))
    unfold specSumAt at ihh
    rw [ihh]

theorem monthProbs_eq_spec (fs : FilterState) (cellId : ℕ) (d0 : ℕ) (ds : List ℕ)
    (mdata : MonthData) (L : List Timestamp)
    (H : ∀ d ∈ d0 :: ds, ∃ c, alookup mdata d = some c ∧ c.timestamps = L ∧
      ∃ probs, alookup c.cells cellId = some probs ∧ probs.length = L.length) :
    monthProbs fs cellId (d0 :: ds) mdata =
      (L.filter fun ts => specQualifies fs ts).map (specSumAt mdata (d0 :: ds) cellId) := by
  obtain ⟨c0, hc0, hts0, probs0, hp0, hl0⟩ := H d0 (List.mem_cons_self d0 ds)
  unfold monthProbs
  simp only [List.head?_cons, hc0, hts0, filters_compose]
  refine filterMapEqMap _ _ _ ?_
  intro ts hts
  have htsL : ts ∈ L := (List.mem_filter.mp hts).1
  obtain ⟨i, hidx, hiL⟩ := idxOf?_mem ts L htsL
  simp only [hidx]
  rw [depthFold_sum mdata cellId i (d0 :: ds)
    (fun d hd => by
      obtain ⟨c, hc, hts2, probs, hp, hl⟩ := H d hd
      exact ⟨c, hc, probs, hp, hl ▸ hiL⟩) 0 false]
  rw [specSumAt_eq_idx mdata cellId ts L i hidx (d0 :: ds)
    (fun d hd => by
      obtain ⟨c, hc, hts2, probs, hp, hl⟩ := H d hd
      exact ⟨c, hc, hts2, probs, hp⟩)]
  simp

/-- C4 (amended): for a cache in which every loaded month holds a chunk
for each of the cell's selected depth layers, all chunks of a month
sharing one timestamp list `T month` and containing the cell's
probability sequence of matching length, the cell's aggregate risk equals
the minimum over all qualifying timestamps across all loaded months of
the per-timestamp sum across the selected depth layers — and it is `none`
exactly when no qualifying timestamp exists. -/
theorem cell_risk_min_of_qualifying (loadedData : Cache) (cellMaxDepths : List ℕ)
    (fs : FilterState) (cellId : ℕ) (cat : ℕ) (depths : List ℕ)
    (T : Month → List Timestamp)
    (hcat : getCellMaxDepth cellMaxDepths cellId = some cat) (hcat0 : cat ≠ 0)
    (hsel : getSelectedDepthsForCell fs cat = depths) (hne : depths ≠ [])
    (H : ∀ p ∈ loadedData, ∀ d ∈ depths,
      ∃ c, alookup p.2 d = some c ∧ c.timestamps = T p.1 ∧
        ∃ probs, alookup c.cells cellId = some probs ∧
          probs.length = (T p.1).length) :
    cellMinimumRisk loadedData cellMaxDepths fs cellId =
      (specSums loadedData fs depths cellId T).min? := by
  obtain ⟨d0, ds, rfl⟩ := List.exists_cons_of_ne_nil hne
  unfold cellMinimumRisk
  simp only [hcat, if_neg hcat0, hsel]
  have hflat : (loadedData.flatMap fun md => monthProbs fs cellId (d0 :: ds) md.2) =
      specSums loadedData fs (d0 :: ds) cellId T := by
    unfold specSums
    refine flatMapCongr _ _ loadedData ?_
    intro p hp
    exact monthProbs_eq_spec fs cellId d0 ds p.2 (T p.1) (fun d hd => H p hp d hd)
  rw [hflat]
  cases hS : specSums loadedData fs (d0 :: ds) cellId T with
  | nil => rfl
  | cons q qs => simp [List.min?]

/-- C4 counterexample: the cell's selected depth layers are [25, 50]; the
loaded month holds only the depth-50 chunk, whose single timestamp
qualifies under the (empty) filters with a summed value of 1/20 — yet the
source computes no risk for the cell, because the month's timestamps are
taken from the absent depth-25 chunk.  So the risk does not equal the
minimum over the qualifying timestamps of the loaded chunks. -/
theorem cell_risk_partial_cache_fails :
    cellMinimumRisk [((2024, 1), [(50, ⟨[⟨0, 0⟩], [(0, [1/20])]⟩)])] [50]
        ⟨[(50, [25, 50])], none, none, []⟩ 0 = none ∧
    specSums [((2024, 1), [(50, ⟨[⟨0, 0⟩], [(0, [1/20])]⟩)])]
        ⟨[(50, [25, 50])], none, none, []⟩ [25, 50] 0 (fun _ => [⟨0, 0⟩]) = [1/20] ∧
    ([1/20] : List ℚ).min? = some (1/20) ∧
    (none : Option ℚ) ≠ some (1/20) := by
  refine ⟨rfl, ?_, rfl, by simp⟩
  norm_num [specSums, specSumAt, specQualifies, isTimestampInTimeOfDay, probAt, idxOf?,
    alookup, vget]

/-- Witness for C4 (amended): one loaded month with both selected depth
chunks present and two qualifying timestamps whose summed values are
0.2 = 1/5 and 0.05 = 1/20; the computed risk is the minimum 0.05. -/
theorem cell_risk_min_of_qualifying_witness :
    specSums
        [((2024, 1), [(25, (⟨[⟨0, 0⟩, ⟨60, 0⟩], [(0, [3/20, 3/100])]⟩ : Chunk)),
                      (50, (⟨[⟨0, 0⟩, ⟨60, 0⟩], [(0, [1/20, 1/50])]⟩ : Chunk))])]
        ⟨[(50, [25, 50])], none, none, []⟩ [25, 50] 0 (fun _ => [⟨0, 0⟩, ⟨60, 0⟩]) =
      [1/5, 1/20] ∧
    cellMinimumRisk
        [((2024, 1), [(25, (⟨[⟨0, 0⟩, ⟨60, 0⟩], [(0, [3/20, 3/100])]⟩ : Chunk)),
                      (50, (⟨[⟨0, 0⟩, ⟨60, 0⟩], [(0, [1/20, 1/50])]⟩ : Chunk))])] [50]
        ⟨[(50, [25, 50])], none, none, []⟩ 0 = some (1/20) := by
  have heval : specSums
      [((2024, 1), [(25, (⟨[⟨0, 0⟩, ⟨60, 0⟩], [(0, [3/20, 3/100])]⟩ : Chunk)),
                    (50, (⟨[⟨0, 0⟩, ⟨60, 0⟩], [(0, [1/20, 1/50])]⟩ : Chunk))])]
      ⟨[(50, [25, 50])], none, none, []⟩ [25, 50] 0 (fun _ => [⟨0, 0⟩, ⟨60, 0⟩]) =
      [1/5, 1/20] := by
    norm_num [specSums, specSumAt, specQualifies, isTimestampInTimeOfDay, probAt, idxOf?,
      alookup, vget]
  refine ⟨heval, ?_⟩
  have h := cell_risk_min_of_qualifying
    [((2024, 1), [(25, (⟨[⟨0, 0⟩, ⟨60, 0⟩], [(0, [3/20, 3/100])]⟩ : Chunk)),
                  (50, (⟨[⟨0, 0⟩, ⟨60, 0⟩], [(0, [1/20, 1/50])]⟩ : Chunk))])] [50]
    ⟨[(50, [25, 50])], none, none, []⟩ 0 50 [25, 50] (fun _ => [⟨0, 0⟩, ⟨60, 0⟩])
    rfl (by decide) rfl (by decide)
    (by
      intro p hp d hd
      simp only [List.mem_singleton] at hp
      subst hp
      rcases List.mem_cons.mp hd with rfl | hd2
      · exact ⟨⟨[⟨0, 0⟩, ⟨60, 0⟩], [(0, [3/20, 3/100])]⟩, rfl, rfl,
          [3/20, 3/100], rfl, rfl⟩
      · rcases List.mem_cons.mp hd2 with rfl | hd3
        · exact ⟨⟨[⟨0, 0⟩, ⟨60, 0⟩], [(0, [1/20, 1/50])]⟩, rfl, rfl,
            [1/20, 1/50], rfl, rfl⟩
        · cases hd3)
  rw [h, heval]
  norm_num [List.min?, min_def]
